import Mathlib

/-!
Verification of the fl_dstar fault-localization tool (src/lib.rs, src/main.rs).

The program parses gcov-style line-coverage reports, aggregates per-line
pass/fail coverage counts across many reports, scores each line with the
DStar (star = 2) suspiciousness formula in `f32` arithmetic, and sorts the
resulting entries.

Modelling conventions:
* Rust `f32` values are modelled exactly by the type `F32` below: a finite
  value is an exact rational `num / (den + 1)` (the `den` field stores the
  denominator minus one, so denominators are positive by construction), plus
  the IEEE-754 special values `posInf`, `negInf`, `nan`.  The arithmetic
  operations follow the IEEE-754 special-value rules; finite arithmetic is
  exact rather than rounded.  Every numeric quantity of this program is an
  integer below 2^24 in the intended workloads, where `u32`-to-`f32`
  conversion and the arithmetic of the score formula are exact, so the model
  coincides with `f32` there.  The model has a single zero; in the source the
  only zero denominator that arises is the exact `+0.0` of `a + b - c`, whose
  division behaves as modelled.
* Rust `u32` counters are modelled by `Nat`; the program increments them at
  most once per coverage report, far below the `u32` range.
* Panics (`unwrap`, failed `assert_eq!`, out-of-bounds indexing) are modelled
  by `Option`: `none` is an aborted run.
* Text is modelled as `List Char`; `String.data` converts literals.
* `sort_by` is modelled by a stable insertion sort using the same comparator;
  for a comparator that is a total preorder a stable sort determines the
  output uniquely, and the comparator's `unwrap` panic on `NaN` is the
  `Option` failure of the model.
-/

/-- Exact model of Rust `f32`: a finite value `num / (den + 1)`, or one of the
IEEE-754 special values. -/
inductive F32 where
  | finite (num : Int) (den : Nat)
  | posInf
  | negInf
  | nan
deriving DecidableEq

/-- The rational value of a finite `F32`, `none` for the special values. -/
def F32.qVal : F32 → Option ℚ
  | .finite a b => some ((a : ℚ) / ((b : ℚ) + 1))
  | _ => none

/-- Rust `u32 as f32` cast (exact for the counter ranges of this program). -/
def natToF32 (n : Nat) : F32 :=
  .finite (n : Int) 0

/-- IEEE-754 addition on the exact model. -/
def f32Add : F32 → F32 → F32
  | .nan, _ => .nan
  | _, .nan => .nan
  | .posInf, .negInf => .nan
  | .negInf, .posInf => .nan
  | .posInf, _ => .posInf
  | _, .posInf => .posInf
  | .negInf, _ => .negInf
  | _, .negInf => .negInf
  | .finite a b, .finite c d => .finite (a * (d + 1) + c * (b + 1)) ((b + 1) * (d + 1) - 1)

/-- IEEE-754 subtraction on the exact model. -/
def f32Sub : F32 → F32 → F32
  | .nan, _ => .nan
  | _, .nan => .nan
  | .posInf, .posInf => .nan
  | .negInf, .negInf => .nan
  | .posInf, _ => .posInf
  | _, .posInf => .negInf
  | .negInf, _ => .negInf
  | _, .negInf => .posInf
  | .finite a b, .finite c d => .finite (a * (d + 1) - c * (b + 1)) ((b + 1) * (d + 1) - 1)

/-- IEEE-754 multiplication on the exact model. -/
def f32Mul : F32 → F32 → F32
  | .nan, _ => .nan
  | _, .nan => .nan
  | .posInf, .posInf => .posInf
  | .posInf, .negInf => .negInf
  | .negInf, .posInf => .negInf
  | .negInf, .negInf => .posInf
  | .posInf, .finite c _ => if c = 0 then .nan else if 0 < c then .posInf else .negInf
  | .finite a _, .posInf => if a = 0 then .nan else if 0 < a then .posInf else .negInf
  | .negInf, .finite c _ => if c = 0 then .nan else if 0 < c then .negInf else .posInf
  | .finite a _, .negInf => if a = 0 then .nan else if 0 < a then .negInf else .posInf
  | .finite a b, .finite c d => .finite (a * c) ((b + 1) * (d + 1) - 1)

/-- IEEE-754 division on the exact model.  Division of a nonzero finite value
by (the model's single, positive) zero yields a signed infinity; `0 / 0` is
`nan`. -/
def f32Div : F32 → F32 → F32
  | .nan, _ => .nan
  | _, .nan => .nan
  | .posInf, .posInf => .nan
  | .posInf, .negInf => .nan
  | .negInf, .posInf => .nan
  | .negInf, .negInf => .nan
  | .posInf, .finite c _ => if 0 ≤ c then .posInf else .negInf
  | .negInf, .finite c _ => if 0 ≤ c then .negInf else .posInf
  | .finite _ _, .posInf => .finite 0 0
  | .finite _ _, .negInf => .finite 0 0
  | .finite a b, .finite c d =>
      if c = 0 then
        if a = 0 then .nan else if 0 < a then .posInf else .negInf
      else .finite (a * ((d : Int) + 1) * c.sign) ((b + 1) * c.natAbs - 1)

/-- Three-way comparison on `Int` (`Ord::cmp`). -/
def cmpInt (x y : Int) : Ordering :=
  if x < y then .lt else if x = y then .eq else .gt

/-- Three-way comparison on `Nat` (`Ord::cmp` on `u32`). -/
def cmpNat (x y : Nat) : Ordering :=
  if x < y then .lt else if x = y then .eq else .gt

/-- Rust `PartialOrd::partial_cmp` on `f32`: `none` exactly when an operand is
`NaN`; finite values compare by their rational value (denominators are
positive, so cross-multiplication is order-preserving). -/
def f32Cmp : F32 → F32 → Option Ordering
  | .nan, _ => none
  | _, .nan => none
  | .posInf, .posInf => some .eq
  | .posInf, _ => some .gt
  | _, .posInf => some .lt
  | .negInf, .negInf => some .eq
  | .negInf, _ => some .lt
  | _, .negInf => some .gt
  | .finite a b, .finite c d => some (cmpInt (a * ((d : Int) + 1)) (c * ((b : Int) + 1)))

/-- `enum Coverage` from src/lib.rs. -/
inductive Coverage where
  | Covered
  | NotCovered
  | NoExecutableCode
deriving DecidableEq

/-- `struct LineInfo` from src/lib.rs. -/
structure LineInfo where
  line_number : Nat
  statement : List Char
  coverage : Coverage
deriving DecidableEq

/-- `struct StatementInfo` from src/lib.rs. -/
structure StatementInfo where
  line_number : Nat
  statement : List Char
  failed_tests : Nat
  passed_tests : Nat
  total_failed : Nat
  suspiciousness : F32
deriving DecidableEq

/-- `StatementInfo::new` from src/lib.rs. -/
def StatementInfo.new (line_number : Nat) (statement : List Char)
    (total_failed : Nat) : StatementInfo :=
  { line_number := line_number
    statement := statement
    failed_tests := 0
    passed_tests := 0
    total_failed := total_failed
    suspiciousness := .finite 0 0 }

/-- `StatementInfo::add_passing_coverage` from src/lib.rs. -/
def add_passing_coverage (s : StatementInfo) : StatementInfo :=
  { s with passed_tests := s.passed_tests + 1 }

/-- `StatementInfo::add_failing_coverage` from src/lib.rs. -/
def add_failing_coverage (s : StatementInfo) : StatementInfo :=
  { s with failed_tests := s.failed_tests + 1 }

/-- `StatementInfo::calculate_suspiciousness` from src/lib.rs:
`(failed * failed) / (passed + total_failed - failed)` in `f32`. -/
def calculate_suspiciousness (s : StatementInfo) : StatementInfo :=
  let failed_tests := natToF32 s.failed_tests
  let passed_tests := natToF32 s.passed_tests
  let total_failed := natToF32 s.total_failed
  let suspiciousness :=
    f32Div (f32Mul failed_tests failed_tests)
      (f32Sub (f32Add passed_tests total_failed) failed_tests)
  { s with suspiciousness := suspiciousness }

/-- Rust `str::split(':')` on character lists: the list of fragments between
colons (always at least one fragment, possibly empty). -/
def splitOnColon : List Char → List (List Char)
  | [] => [[]]
  | c :: cs =>
    if c = ':' then [] :: splitOnColon cs
    else
      match splitOnColon cs with
      | [] => [[c]]
      | f :: rest => (c :: f) :: rest

/-- Rust `str::trim_start` (leading-whitespace removal; the ASCII whitespace
of this format). -/
def trimStart (l : List Char) : List Char :=
  l.dropWhile Char.isWhitespace

/-- Rust `str::trim_end`. -/
def trimEnd (l : List Char) : List Char :=
  (trimStart l.reverse).reverse

/-- Rust `str::trim`. -/
def trim (l : List Char) : List Char :=
  trimEnd (trimStart l)

/-- Rust `str::parse::<u32>`: an optional leading `+`, then one or more
decimal digits, value below `2 ^ 32`; anything else is an error. -/
def parseU32 (l : List Char) : Option Nat :=
  let digits := match l with
    | '+' :: rest => rest
    | _ => l
  if digits = [] then none
  else if digits.all Char.isDigit then
    let n := digits.foldl (fun a c => a * 10 + (c.toNat - 48)) 0
    if n < 2 ^ 32 then some n else none
  else none

/-- `parse_gcov_line` from src/lib.rs.  `none` models the panics (indexing a
missing second field, or `unwrap` on a failed `u32` parse). -/
def parse_gcov_line (line : List Char) : Option LineInfo :=
  let fields := splitOnColon line
  match fields with
  | [] => none
  | f0 :: rest0 =>
    let coverage :=
      if trim f0 = [ '-' ] then Coverage.NoExecutableCode
      else if trim f0 = [ '#', '#', '#', '#', '#' ] then Coverage.NotCovered
      else Coverage.Covered
    match rest0 with
    | [] => none
    | f1 :: rest =>
      match parseU32 (trim f1) with
      | none => none
      | some n =>
        let statement :=
          match rest with
          | [] => []
          | r0 :: rs => trimStart r0 ++ rs.foldl (fun acc r => acc ++ ':' :: r) []
        some { line_number := n, statement := statement, coverage := coverage }

/-- `parse_gcov_file` from src/lib.rs, over the file's list of lines: skip
blank lines, parse each remaining line, drop `NoExecutableCode` records and
records with line number `0`; `none` models an aborted run. -/
def parse_gcov_file : List (List Char) → Option (List LineInfo)
  | [] => some []
  | l :: ls =>
    if l = [] then parse_gcov_file ls
    else
      match parse_gcov_line l with
      | none => none
      | some info =>
        if info.coverage = Coverage.NoExecutableCode then parse_gcov_file ls
        else if info.line_number = 0 then parse_gcov_file ls
        else
          match parse_gcov_file ls with
          | none => none
          | some rest => some (info :: rest)

/-- `add_test_to_statements` from src/lib.rs: `none` models the failed
`assert_eq!` on mismatched lengths; otherwise each entry whose positionally
matching record is `Covered` gets the counter for the report's kind
incremented. -/
def add_test_to_statements (statements : List StatementInfo)
    (tests : List LineInfo) (is_passing : Bool) : Option (List StatementInfo) :=
  if statements.length = tests.length then
    some (List.zipWith
      (fun s t =>
        if t.coverage = Coverage.Covered then
          if is_passing then add_passing_coverage s else add_failing_coverage s
        else s)
      statements tests)
  else none

/-- The statement-table construction loop of `main` (src/main.rs, lines
49-61): one entry per baseline record that is not `NoExecutableCode`, in
baseline order, with the fixed `total_failed`. -/
def buildTable (baseline : List LineInfo) (total_failed : Nat) :
    List StatementInfo :=
  baseline.filterMap fun line =>
    if line.coverage = Coverage.NoExecutableCode then none
    else some (StatementInfo.new line.line_number line.statement total_failed)

/-- The fold loops of `main` (src/main.rs, lines 62-67): fold every report of
one kind into the table, in order. -/
def foldReports (table : List StatementInfo) (reports : List (List LineInfo))
    (is_passing : Bool) : Option (List StatementInfo) :=
  match reports with
  | [] => some table
  | r :: rs =>
    match add_test_to_statements table r is_passing with
    | none => none
    | some t => foldReports t rs is_passing

/-- The sort comparator of `main` (src/main.rs, lines 72-79):
`b.suspiciousness.partial_cmp(&a.suspiciousness).unwrap()`, ties broken by
`a.line_number.cmp(&b.line_number)`; `none` models the `unwrap` panic on an
incomparable (`NaN`) pair. -/
def cmpEntries (a b : StatementInfo) : Option Ordering :=
  match f32Cmp b.suspiciousness a.suspiciousness with
  | none => none
  | some .eq => some (cmpNat a.line_number b.line_number)
  | some o => some o

/-- Insert an entry into an already sorted list, before the first element the
comparator does not place strictly earlier (the stable insertion of the
model of `sort_by`). -/
def insertEntry (a : StatementInfo) : List StatementInfo → Option (List StatementInfo)
  | [] => some [a]
  | b :: bs =>
    match cmpEntries a b with
    | none => none
    | some .gt =>
      match insertEntry a bs with
      | none => none
      | some out => some (b :: out)
    | some _ => some (a :: b :: bs)

/-- Model of `sort_by` with the comparator of `main`: stable insertion sort;
`none` models a comparator panic on a `NaN` score. -/
def sortEntries : List StatementInfo → Option (List StatementInfo)
  | [] => some []
  | a :: as_ =>
    match sortEntries as_ with
    | none => none
    | some out => insertEntry a out

/-- The per-directory parsing of `main` (src/main.rs, lines 40-47): parse
every report of one list; the whole run aborts on the first parse failure
(the `collect` of `unwrap`ped results). -/
def parseFiles : List (List (List Char)) → Option (List (List LineInfo))
  | [] => some []
  | f :: fsr =>
    match parse_gcov_file f with
    | none => none
    | some infos =>
      match parseFiles fsr with
      | none => none
      | some rest => some (infos :: rest)

/-- The ranking pipeline of `main` (src/main.rs): parse every passing and
failing report, build the table from the first passing report with
`total_failed` the number of failing reports, fold all passing then all
failing reports, score every entry, and sort.  `none` models any panic
(parse failure, no passing report, misaligned lengths, `NaN` comparison). -/
def rank (passing_reports failing_reports : List (List (List Char))) :
    Option (List StatementInfo) :=
  match parseFiles passing_reports with
  | none => none
  | some passing_infos =>
    match parseFiles failing_reports with
    | none => none
    | some failing_infos =>
      match passing_infos.head? with
      | none => none
      | some baseline =>
        let table := buildTable baseline failing_reports.length
        match foldReports table passing_infos true with
        | none => none
        | some t1 =>
          match foldReports t1 failing_infos false with
          | none => none
          | some t2 => sortEntries (t2.map calculate_suspiciousness)

/-- The ordering the spec demands of the final ranking: strictly greater
suspiciousness first; equal suspiciousness (in the IEEE comparison sense)
ordered by ascending line number. -/
def entryBefore (a b : StatementInfo) : Prop :=
  f32Cmp a.suspiciousness b.suspiciousness = some .gt ∨
    (f32Cmp a.suspiciousness b.suspiciousness = some .eq ∧
      a.line_number ≤ b.line_number)

/-- The statement text the spec assigns to a parsed line: the text after the
second colon, with the leading whitespace of its first colon-fragment
trimmed and every later colon kept verbatim. -/
def statementOfText (t : List Char) : List Char :=
  trimStart (t.takeWhile (fun c => c ≠ ':')) ++ t.dropWhile (fun c => c ≠ ':')

/-- The rational value of the finite `F32` with fields `a`, `b`. -/
def qv (a : Int) (b : Nat) : ℚ :=
  (a : ℚ) / ((b : ℚ) + 1)

theorem cmpInt_eq_lt {x y : Int} : cmpInt x y = .lt ↔ x < y := by
  unfold cmpInt; split_ifs <;> simp_all <;> omega

theorem cmpInt_eq_eq {x y : Int} : cmpInt x y = .eq ↔ x = y := by
  unfold cmpInt; split_ifs <;> simp_all <;> omega

theorem cmpInt_eq_gt {x y : Int} : cmpInt x y = .gt ↔ y < x := by
  unfold cmpInt; split_ifs <;> simp_all <;> omega

theorem qv_lt_qv {a : Int} {b : Nat} {c : Int} {d : Nat} :
    qv a b < qv c d ↔ a * ((d : Int) + 1) < c * ((b : Int) + 1) := by
  unfold qv
  rw [div_lt_div_iff (by positivity) (by positivity)]
  constructor
  · intro h; exact_mod_cast h
  · intro h; exact_mod_cast h

theorem qv_eq_qv {a : Int} {b : Nat} {c : Int} {d : Nat} :
    qv a b = qv c d ↔ a * ((d : Int) + 1) = c * ((b : Int) + 1) := by
  unfold qv
  rw [div_eq_div_iff (by positivity) (by positivity)]
  constructor
  · intro h; exact_mod_cast h
  · intro h; exact_mod_cast h

theorem f32Gt_trans {x y z : F32} (h1 : f32Cmp x y = some .gt)
    (h2 : f32Cmp y z = some .gt) : f32Cmp x z = some .gt := by
  cases x <;> cases y <;> cases z <;> simp_all [f32Cmp, cmpInt_eq_gt]
  rename_i a1 b1 a2 b2 a3 b3
  exact qv_lt_qv.mp ((qv_lt_qv.mpr h2).trans (qv_lt_qv.mpr h1))

theorem f32Gt_of_gt_of_eq {x y z : F32} (h1 : f32Cmp x y = some .gt)
    (h2 : f32Cmp y z = some .eq) : f32Cmp x z = some .gt := by
  cases x <;> cases y <;> cases z <;> simp_all [f32Cmp, cmpInt_eq_gt, cmpInt_eq_eq]
  rename_i a1 b1 a2 b2 a3 b3
  exact qv_lt_qv.mp ((qv_eq_qv.mpr h2).symm.trans_lt (qv_lt_qv.mpr h1))

theorem f32Gt_of_eq_of_gt {x y z : F32} (h1 : f32Cmp x y = some .eq)
    (h2 : f32Cmp y z = some .gt) : f32Cmp x z = some .gt := by
  cases x <;> cases y <;> cases z <;> simp_all [f32Cmp, cmpInt_eq_gt, cmpInt_eq_eq]
  rename_i a1 b1 a2 b2 a3 b3
  exact qv_lt_qv.mp ((qv_lt_qv.mpr h2).trans_eq (qv_eq_qv.mpr h1).symm)

theorem f32Eq_trans {x y z : F32} (h1 : f32Cmp x y = some .eq)
    (h2 : f32Cmp y z = some .eq) : f32Cmp x z = some .eq := by
  cases x <;> cases y <;> cases z <;> simp_all [f32Cmp, cmpInt_eq_eq]
  rename_i a1 b1 a2 b2 a3 b3
  exact qv_eq_qv.mp ((qv_eq_qv.mpr h1).trans (qv_eq_qv.mpr h2))

theorem f32Cmp_gt_iff_lt {x y : F32} :
    f32Cmp x y = some .gt ↔ f32Cmp y x = some .lt := by
  cases x <;> cases y <;> simp_all [f32Cmp, cmpInt_eq_gt, cmpInt_eq_lt]

theorem f32Cmp_eq_comm {x y : F32} :
    f32Cmp x y = some .eq ↔ f32Cmp y x = some .eq := by
  cases x <;> cases y <;> simp_all [f32Cmp, cmpInt_eq_eq]
  exact eq_comm

theorem f32Cmp_ne_none {x y : F32} (hx : x ≠ F32.nan) (hy : y ≠ F32.nan) :
    f32Cmp x y ≠ none := by
  cases x <;> cases y <;> simp_all [f32Cmp]

theorem f32Cmp_none_nan {x y : F32} (h : f32Cmp x y = none) :
    x = F32.nan ∨ y = F32.nan := by
  cases x <;> cases y <;> simp_all [f32Cmp]

theorem cmpNat_eq_lt {x y : Nat} : cmpNat x y = .lt ↔ x < y := by
  unfold cmpNat; split_ifs <;> simp_all <;> omega

theorem cmpNat_eq_eq {x y : Nat} : cmpNat x y = .eq ↔ x = y := by
  unfold cmpNat; split_ifs <;> simp_all <;> omega

theorem cmpNat_eq_gt {x y : Nat} : cmpNat x y = .gt ↔ y < x := by
  unfold cmpNat; split_ifs <;> simp_all <;> omega

theorem entryBefore_trans {a b c : StatementInfo} (h1 : entryBefore a b)
    (h2 : entryBefore b c) : entryBefore a c := by
  rcases h1 with h1 | ⟨h1, l1⟩ <;> rcases h2 with h2 | ⟨h2, l2⟩
  · exact Or.inl (f32Gt_trans h1 h2)
  · exact Or.inl (f32Gt_of_gt_of_eq h1 h2)
  · exact Or.inl (f32Gt_of_eq_of_gt h1 h2)
  · exact Or.inr ⟨f32Eq_trans h1 h2, le_trans l1 l2⟩

theorem entryBefore_of_cmp_gt {a b : StatementInfo}
    (h : cmpEntries a b = some .gt) : entryBefore b a := by
  unfold cmpEntries at h
  cases hc : f32Cmp b.suspiciousness a.suspiciousness with
  | none => rw [hc] at h; exact absurd h (by simp)
  | some o =>
    rw [hc] at h
    cases o with
    | lt => exact absurd h (by simp)
    | eq =>
      simp only [Option.some.injEq] at h
      exact Or.inr ⟨hc, le_of_lt (cmpNat_eq_gt.mp h)⟩
    | gt => exact Or.inl hc

theorem entryBefore_of_cmp_le {a b : StatementInfo} {o : Ordering}
    (h : cmpEntries a b = some o) (ho : o ≠ .gt) : entryBefore a b := by
  unfold cmpEntries at h
  cases hc : f32Cmp b.suspiciousness a.suspiciousness with
  | none => rw [hc] at h; exact absurd h (by simp)
  | some o' =>
    rw [hc] at h
    cases o' with
    | lt =>
      simp only [Option.some.injEq] at h
      exact Or.inl (f32Cmp_gt_iff_lt.mpr hc)
    | eq =>
      simp only [Option.some.injEq] at h
      subst h
      cases ho' : cmpNat a.line_number b.line_number with
      | lt => exact Or.inr ⟨f32Cmp_eq_comm.mp hc, le_of_lt (cmpNat_eq_lt.mp ho')⟩
      | eq => exact Or.inr ⟨f32Cmp_eq_comm.mp hc, le_of_eq (cmpNat_eq_eq.mp ho')⟩
      | gt => exact absurd ho' (by simpa using ho)
    | gt =>
      simp only [Option.some.injEq] at h
      subst h
      exact absurd rfl ho

theorem mem_of_insertEntry {a x : StatementInfo} :
    ∀ {l out : List StatementInfo}, insertEntry a l = some out → x ∈ out →
      x = a ∨ x ∈ l := by
  intro l
  induction l with
  | nil =>
    intro out h hx
    simp only [insertEntry, Option.some.injEq] at h
    subst h
    simp at hx
    exact Or.inl hx
  | cons b bs ih =>
    intro out h hx
    unfold insertEntry at h
    cases hc : cmpEntries a b <;> rw [hc] at h
    · exact absurd h (by simp)
    · rename_i o
      cases o with
      | lt =>
        simp only [Option.some.injEq] at h
        subst h
        rcases List.mem_cons.mp hx with rfl | hx
        · exact Or.inl rfl
        · exact Or.inr hx
      | eq =>
        simp only [Option.some.injEq] at h
        subst h
        rcases List.mem_cons.mp hx with rfl | hx
        · exact Or.inl rfl
        · exact Or.inr hx
      | gt =>
        cases hi : insertEntry a bs <;> rw [hi] at h
        · exact absurd h (by simp)
        · rename_i out'
          simp only [Option.some.injEq] at h
          subst h
          rcases List.mem_cons.mp hx with rfl | hx
          · exact Or.inr (by simp)
          · rcases ih hi hx with h' | h'
            · exact Or.inl h'
            · exact Or.inr (List.mem_cons_of_mem b h')

theorem pairwise_insertEntry {a : StatementInfo} :
    ∀ {l out : List StatementInfo}, l.Pairwise entryBefore →
      insertEntry a l = some out → out.Pairwise entryBefore := by
  intro l
  induction l with
  | nil =>
    intro out _ h
    simp only [insertEntry, Option.some.injEq] at h
    subst h
    simp
  | cons b bs ih =>
    intro out hp h
    rw [List.pairwise_cons] at hp
    unfold insertEntry at h
    cases hc : cmpEntries a b <;> rw [hc] at h
    · exact absurd h (by simp)
    · rename_i o
      cases o with
      | lt =>
        simp only [Option.some.injEq] at h
        subst h
        rw [List.pairwise_cons]
        refine ⟨?_, List.pairwise_cons.mpr hp⟩
        intro x hx
        rcases List.mem_cons.mp hx with rfl | hx
        · exact entryBefore_of_cmp_le hc (by simp)
        · exact entryBefore_trans (entryBefore_of_cmp_le hc (by simp)) (hp.1 x hx)
      | eq =>
        simp only [Option.some.injEq] at h
        subst h
        rw [List.pairwise_cons]
        refine ⟨?_, List.pairwise_cons.mpr hp⟩
        intro x hx
        rcases List.mem_cons.mp hx with rfl | hx
        · exact entryBefore_of_cmp_le hc (by simp)
        · exact entryBefore_trans (entryBefore_of_cmp_le hc (by simp)) (hp.1 x hx)
      | gt =>
        cases hi : insertEntry a bs <;> rw [hi] at h
        · exact absurd h (by simp)
        · rename_i out'
          simp only [Option.some.injEq] at h
          subst h
          rw [List.pairwise_cons]
          refine ⟨?_, ih hp.2 hi⟩
          intro x hx
          rcases mem_of_insertEntry hi hx with rfl | hx
          · exact entryBefore_of_cmp_gt hc
          · exact hp.1 x hx

theorem pairwise_sortEntries :
    ∀ {l out : List StatementInfo}, sortEntries l = some out →
      out.Pairwise entryBefore := by
  intro l
  induction l with
  | nil =>
    intro out h
    simp only [sortEntries, Option.some.injEq] at h
    subst h
    simp
  | cons a as_ ih =>
    intro out h
    unfold sortEntries at h
    cases hs : sortEntries as_ <;> rw [hs] at h
    · exact absurd h (by simp)
    · exact pairwise_insertEntry (ih hs) h

theorem suspiciousness_calculate (s : StatementInfo) :
    (calculate_suspiciousness s).suspiciousness =
      if ((s.passed_tests : Int) + s.total_failed - s.failed_tests) = 0 then
        (if s.failed_tests = 0 then F32.nan else F32.posInf)
      else
        .finite ((s.failed_tests : Int) * s.failed_tests *
            ((s.passed_tests : Int) + s.total_failed - s.failed_tests).sign)
          (((s.passed_tests : Int) + s.total_failed - s.failed_tests).natAbs - 1) := by
  unfold calculate_suspiciousness
  simp only [natToF32, f32Mul, f32Add, f32Sub, f32Div]
  norm_num
  split_ifs <;> rfl

theorem calculate_preserves_counts (s : StatementInfo) :
    (calculate_suspiciousness s).line_number = s.line_number ∧
      (calculate_suspiciousness s).failed_tests = s.failed_tests ∧
      (calculate_suspiciousness s).passed_tests = s.passed_tests ∧
      (calculate_suspiciousness s).total_failed = s.total_failed :=
  ⟨rfl, rfl, rfl, rfl⟩

theorem suspiciousness_ne_nan {s : StatementInfo}
    (hinv : s.failed_tests ≤ s.total_failed)
    (hpos : 0 < s.passed_tests + s.total_failed) :
    (calculate_suspiciousness s).suspiciousness ≠ F32.nan := by
  rw [suspiciousness_calculate]
  split_ifs with h1 h2
  · exfalso
    have hf : (s.failed_tests : Int) ≤ s.total_failed := by exact_mod_cast hinv
    omega
  · simp
  · simp

/-- C1 (amended: the entry must additionally have a positive
`passed_tests + total_failed`, i.e. not be the all-zero entry): for every
pair of `StatementEntry`s whose counts are non-negative, satisfy
`failed_tests ≤ total_failed`, and have `passed_tests + total_failed > 0`,
`calculate_suspiciousness` never produces `NaN`, and the ranking comparator
of `main` (which `unwrap`s the partial comparison) never encounters an
incomparable (`NaN`) pair of such scores. -/
theorem dstar_scores_never_nan (a b : StatementInfo)
    (ha1 : a.failed_tests ≤ a.total_failed)
    (ha2 : 0 < a.passed_tests + a.total_failed)
    (hb1 : b.failed_tests ≤ b.total_failed)
    (hb2 : 0 < b.passed_tests + b.total_failed) :
    (calculate_suspiciousness a).suspiciousness ≠ F32.nan ∧
      cmpEntries (calculate_suspiciousness a) (calculate_suspiciousness b) ≠
        none := by
  refine ⟨suspiciousness_ne_nan ha1 ha2, ?_⟩
  unfold cmpEntries
  cases hc : f32Cmp (calculate_suspiciousness b).suspiciousness
      (calculate_suspiciousness a).suspiciousness with
  | none =>
    exact absurd hc
      (f32Cmp_ne_none (suspiciousness_ne_nan hb1 hb2) (suspiciousness_ne_nan ha1 ha2))
  | some o => cases o <;> simp

theorem dstar_scores_never_nan_witness :
    (calculate_suspiciousness ⟨1, [], 1, 3, 2, .finite 0 0⟩).suspiciousness ≠ F32.nan ∧
      cmpEntries (calculate_suspiciousness ⟨1, [], 1, 3, 2, .finite 0 0⟩)
        (calculate_suspiciousness ⟨2, [], 3, 0, 3, .finite 0 0⟩) ≠ none :=
  dstar_scores_never_nan _ _ (by decide) (by decide) (by decide) (by decide)

/-- C1 counterexample: the all-zero entry (which arises in a run with no
failing reports and a baseline line never covered by any passing test)
satisfies the claimed invariant `failed_tests ≤ total_failed` with
non-negative counts, yet its score is `NaN` (`0.0 / 0.0`) and the ranking
comparator's `unwrap` panics on it. -/
theorem dstar_nan_counterexample :
    (StatementInfo.new 1 [] 0).failed_tests ≤ (StatementInfo.new 1 [] 0).total_failed ∧
      (calculate_suspiciousness (StatementInfo.new 1 [] 0)).suspiciousness = F32.nan ∧
      cmpEntries (calculate_suspiciousness (StatementInfo.new 1 [] 0))
        (calculate_suspiciousness (StatementInfo.new 1 [] 0)) = none := by
  decide

/-- C2 (amended: the zero-denominator clause additionally requires
`failed_tests > 0`): `calculate_suspiciousness` computes
`failed_tests^2 / (passed_tests + total_failed - failed_tests)` — exactly,
as a rational, whenever the denominator is nonzero; the spec's concrete
cases `(passed, failed, total_failed) = (3, 1, 2) ↦ 0.25`,
`(0, 616, 617) ↦ 379456.0` and `(3, 0, 2) ↦ 0.0` hold; and a zero
denominator with `failed_tests > 0` yields positive infinity, preserved as
a value rather than an error or sentinel. -/
theorem dstar_formula_eval :
    (∀ s : StatementInfo, s.passed_tests + s.total_failed ≠ s.failed_tests →
        F32.qVal ((calculate_suspiciousness s).suspiciousness) =
          some (((s.failed_tests : ℚ) * s.failed_tests) /
            ((s.passed_tests : ℚ) + s.total_failed - s.failed_tests))) ∧
      F32.qVal ((calculate_suspiciousness ⟨1, [], 1, 3, 2, .finite 0 0⟩).suspiciousness)
        = some (1 / 4) ∧
      F32.qVal ((calculate_suspiciousness ⟨1, [], 616, 0, 617, .finite 0 0⟩).suspiciousness)
        = some 379456 ∧
      F32.qVal ((calculate_suspiciousness ⟨1, [], 0, 3, 2, .finite 0 0⟩).suspiciousness)
        = some 0 ∧
      (∀ s : StatementInfo, s.passed_tests + s.total_failed = s.failed_tests →
        0 < s.failed_tests →
        (calculate_suspiciousness s).suspiciousness = F32.posInf) := by
  refine ⟨?_, ?_, ?_, ?_, ?_⟩
  · intro s h
    rw [suspiciousness_calculate]
    have hc : ((s.passed_tests : Int) + s.total_failed - s.failed_tests) ≠ 0 := by
      omega
    rw [if_neg hc]
    set c : Int := (s.passed_tests : Int) + s.total_failed - s.failed_tests with hcdef
    have h1 : 1 ≤ c.natAbs := by omega
    have habs : ((c.natAbs - 1 : ℕ) : ℚ) + 1 = (c.natAbs : ℚ) := by
      have h2 : (c.natAbs - 1) + 1 = c.natAbs := by omega
      rw [show ((c.natAbs - 1 : ℕ) : ℚ) + 1 = (((c.natAbs - 1) + 1 : ℕ) : ℚ) by
        push_cast; ring, h2]
    have hcq : (c : ℚ) = (s.passed_tests : ℚ) + s.total_failed - s.failed_tests := by
      rw [hcdef]; push_cast; ring
    have hcq0 : (c : ℚ) ≠ 0 := by exact_mod_cast hc
    have hA : ((c.natAbs : ℕ) : ℚ) ≠ 0 := by
      simp only [ne_eq, Nat.cast_eq_zero, Int.natAbs_eq_zero]
      exact hc
    have key2 : (c.sign : ℤ) * c = (c.natAbs : ℤ) := by
      rcases lt_trichotomy c 0 with hl | hl | hl
      · rw [Int.sign_eq_neg_one_of_neg hl]; omega
      · exact absurd hl hc
      · rw [Int.sign_eq_one_of_pos hl]; omega
    have key2q : ((c.sign : ℤ) : ℚ) * (c : ℚ) = ((c.natAbs : ℕ) : ℚ) := by
      rw [← Int.cast_mul, key2]
      exact Int.cast_natCast c.natAbs
    simp only [F32.qVal]
    rw [habs, ← hcq]
    congr 1
    rw [div_eq_div_iff hA hcq0]
    push_cast
    push_cast at key2q
    linear_combination ((s.failed_tests : ℚ) * s.failed_tests) * key2q
  · have h : (calculate_suspiciousness ⟨1, [], 1, 3, 2, .finite 0 0⟩).suspiciousness
        = F32.finite 1 3 := by decide
    rw [h]; simp only [F32.qVal]; norm_num
  · have h : (calculate_suspiciousness ⟨1, [], 616, 0, 617, .finite 0 0⟩).suspiciousness
        = F32.finite 379456 0 := by decide
    rw [h]; simp only [F32.qVal]; norm_num
  · have h : (calculate_suspiciousness ⟨1, [], 0, 3, 2, .finite 0 0⟩).suspiciousness
        = F32.finite 0 4 := by decide
    rw [h]; simp only [F32.qVal]; norm_num
  · intro s h hf
    rw [suspiciousness_calculate]
    rw [if_pos (by omega : ((s.passed_tests : Int) + s.total_failed - s.failed_tests) = 0),
      if_neg (by omega : ¬ s.failed_tests = 0)]

theorem dstar_formula_eval_witness :
    F32.qVal ((calculate_suspiciousness ⟨1, [], 2, 1, 4, .finite 0 0⟩).suspiciousness) =
        some ((((⟨1, [], 2, 1, 4, .finite 0 0⟩ : StatementInfo).failed_tests : ℚ) *
            (⟨1, [], 2, 1, 4, .finite 0 0⟩ : StatementInfo).failed_tests) /
          (((⟨1, [], 2, 1, 4, .finite 0 0⟩ : StatementInfo).passed_tests : ℚ) +
            (⟨1, [], 2, 1, 4, .finite 0 0⟩ : StatementInfo).total_failed -
            (⟨1, [], 2, 1, 4, .finite 0 0⟩ : StatementInfo).failed_tests)) ∧
      (calculate_suspiciousness ⟨1, [], 3, 0, 3, .finite 0 0⟩).suspiciousness = F32.posInf :=
  ⟨dstar_formula_eval.1 ⟨1, [], 2, 1, 4, .finite 0 0⟩ (by decide),
    dstar_formula_eval.2.2.2.2 ⟨1, [], 3, 0, 3, .finite 0 0⟩ (by decide) (by decide)⟩

/-- C2 counterexample: for the all-zero entry the score's denominator is
zero, yet the result is `NaN` (`0.0 / 0.0`), not positive infinity, so the
claim's unconditional zero-denominator clause is false. -/
theorem dstar_zero_denominator_counterexample :
    (StatementInfo.new 1 [] 0).passed_tests + (StatementInfo.new 1 [] 0).total_failed
        = (StatementInfo.new 1 [] 0).failed_tests ∧
      (calculate_suspiciousness (StatementInfo.new 1 [] 0)).suspiciousness ≠ F32.posInf ∧
      (calculate_suspiciousness (StatementInfo.new 1 [] 0)).suspiciousness = F32.nan := by
  decide

/-- C3: folding one report into the table requires equal lengths (a fatal
error otherwise), and at each position a `Covered` record increments exactly
the counter matching the report's kind while a non-`Covered` record leaves
the entry unchanged. -/
theorem add_test_characterization :
    (∀ (s : List StatementInfo) (t : List LineInfo) (p : Bool),
        s.length ≠ t.length → add_test_to_statements s t p = none) ∧
      (∀ (s : List StatementInfo) (t : List LineInfo) (p : Bool)
          (out : List StatementInfo), add_test_to_statements s t p = some out →
        out.length = s.length ∧
        ∀ i (hi : i < out.length) (hs : i < s.length) (ht : i < t.length),
          (t[i].coverage = Coverage.Covered →
              (p = true →
                out[i].passed_tests = s[i].passed_tests + 1 ∧
                out[i].failed_tests = s[i].failed_tests) ∧
              (p = false →
                out[i].failed_tests = s[i].failed_tests + 1 ∧
                out[i].passed_tests = s[i].passed_tests)) ∧
            (t[i].coverage ≠ Coverage.Covered → out[i] = s[i])) := by
  constructor
  · intro s t p h
    unfold add_test_to_statements
    rw [if_neg h]
  · intro s t p out h
    unfold add_test_to_statements at h
    by_cases hlen : s.length = t.length
    · rw [if_pos hlen] at h
      simp only [Option.some.injEq] at h
      subst h
      refine ⟨by rw [List.length_zipWith]; omega, ?_⟩
      intro i hi hs ht
      refine ⟨fun hcov => ⟨fun hp => ?_, fun hp => ?_⟩, fun hcov => ?_⟩
      · subst hp
        simp [List.getElem_zipWith, hcov, add_passing_coverage]
      · subst hp
        simp [List.getElem_zipWith, hcov, add_failing_coverage]
      · simp [List.getElem_zipWith, hcov]
    · rw [if_neg hlen] at h
      exact absurd h (by simp)

theorem add_test_characterization_witness :
    add_test_to_statements [StatementInfo.new 1 [] 2] [] true = none ∧
      ([(⟨1, [], 0, 1, 2, .finite 0 0⟩ : StatementInfo), ⟨2, [], 0, 0, 2, .finite 0 0⟩,
          ⟨3, [], 0, 1, 2, .finite 0 0⟩] : List StatementInfo).length =
        ([StatementInfo.new 1 [] 2, StatementInfo.new 2 [] 2,
          StatementInfo.new 3 [] 2] : List StatementInfo).length :=
  ⟨add_test_characterization.1 _ _ true (by decide),
    (add_test_characterization.2
      [StatementInfo.new 1 [] 2, StatementInfo.new 2 [] 2, StatementInfo.new 3 [] 2]
      [⟨1, [], .Covered⟩, ⟨2, [], .NotCovered⟩, ⟨3, [], .Covered⟩] true _ (by decide)).1⟩

theorem splitOnColon_ne_nil (l : List Char) : splitOnColon l ≠ [] := by
  cases l with
  | nil => simp [splitOnColon]
  | cons c cs =>
    unfold splitOnColon
    split_ifs
    · simp
    · cases splitOnColon cs <;> simp

theorem foldl_colon_append (xs : List (List Char)) (a b : List Char) :
    xs.foldl (fun acc r => acc ++ ':' :: r) (a ++ b) =
      a ++ xs.foldl (fun acc r => acc ++ ':' :: r) b := by
  induction xs generalizing b with
  | nil => rfl
  | cons x xs ih =>
    simp only [List.foldl_cons]
    rw [List.append_assoc, ih]

theorem splitOnColon_foldl (l : List Char) (acc : List Char) :
    (splitOnColon l).foldl (fun acc r => acc ++ ':' :: r) acc = acc ++ ':' :: l := by
  induction l generalizing acc with
  | nil => simp [splitOnColon]
  | cons c cs ih =>
    unfold splitOnColon
    by_cases hc : c = ':'
    · subst hc
      rw [if_pos rfl]
      simp only [List.foldl_cons]
      rw [ih]
      simp
    · rw [if_neg hc]
      cases hsp : splitOnColon cs with
      | nil => exact absurd hsp (splitOnColon_ne_nil cs)
      | cons f rest =>
        simp only [List.foldl_cons]
        have hrest : List.foldl (fun acc r => acc ++ ':' :: r) (':' :: f) rest = ':' :: cs := by
          have h0 := ih []
          rw [hsp] at h0
          simpa using h0
        have hf : List.foldl (fun acc r => acc ++ ':' :: r) f rest = cs := by
          have h2 := foldl_colon_append rest [':'] f
          rw [show ([':'] : List Char) ++ f = ':' :: f from rfl] at h2
          rw [h2] at hrest
          simpa using hrest
        have h3 := foldl_colon_append rest (acc ++ [':', c]) f
        rw [hf] at h3
        rw [show acc ++ ':' :: c :: f = (acc ++ [':', c]) ++ f by simp, h3]
        simp

theorem splitOnColon_shape (l : List Char) :
    ∃ rs, splitOnColon l = (l.takeWhile (fun c => c ≠ ':')) :: rs ∧
      rs.foldl (fun acc r => acc ++ ':' :: r) [] = l.dropWhile (fun c => c ≠ ':') := by
  induction l with
  | nil => exact ⟨[], by simp [splitOnColon], by simp⟩
  | cons c cs ih =>
    by_cases hc : c = ':'
    · subst hc
      refine ⟨splitOnColon cs, ?_, ?_⟩
      · simp [splitOnColon]
      · rw [splitOnColon_foldl]
        simp
    · obtain ⟨rs, h1, h2⟩ := ih
      refine ⟨rs, ?_, ?_⟩
      · unfold splitOnColon
        rw [if_neg hc, h1]
        simp [hc]
      · rw [h2]
        simp [hc]

theorem splitOnColon_concat (m t : List Char) (hm : ':' ∉ m) :
    splitOnColon (m ++ ':' :: t) = m :: splitOnColon t := by
  induction m with
  | nil => simp [splitOnColon]
  | cons c cs ih =>
    have hc : c ≠ ':' := fun h => hm (h ▸ List.mem_cons_self c cs)
    have hcs : ':' ∉ cs := fun h => hm (List.mem_cons_of_mem c h)
    simp only [List.cons_append, splitOnColon, List.append_eq, if_neg hc, ih hcs]

theorem parse_gcov_line_concat (m nf t : List Char) (hm : ':' ∉ m) (hnf : ':' ∉ nf) :
    parse_gcov_line (m ++ ':' :: (nf ++ ':' :: t)) =
      match parseU32 (trim nf) with
      | none => none
      | some n =>
        some { line_number := n, statement := statementOfText t,
               coverage :=
                 if trim m = [ '-' ] then Coverage.NoExecutableCode
                 else if trim m = [ '#', '#', '#', '#', '#' ] then Coverage.NotCovered
                 else Coverage.Covered } := by
  obtain ⟨rs, hsh, hfold⟩ := splitOnColon_shape t
  simp only [parse_gcov_line]
  rw [splitOnColon_concat m (nf ++ ':' :: t) hm]
  rw [splitOnColon_concat nf t hnf]
  rw [hsh]
  cases hp : parseU32 (trim nf) with
  | none => simp [hp]
  | some n => simp [hp, statementOfText, hfold]

/-- C4: a line of the form `<marker>:<line_number>:<text>` (colon-free marker
and number fields, the number field parsing as a `u32`) parses to that line
number, the marker classification (`-` / `#####` / anything else), and the
statement text reassembled with its leading whitespace trimmed and every
later colon preserved; in particular the spec's sample line parses as
stated. -/
theorem parse_line_format :
    (∀ (m nf t : List Char) (n : Nat), ':' ∉ m → ':' ∉ nf →
        parseU32 (trim nf) = some n →
        parse_gcov_line (m ++ ':' :: (nf ++ ':' :: t)) =
          some { line_number := n, statement := statementOfText t,
                 coverage :=
                   if trim m = [ '-' ] then Coverage.NoExecutableCode
                   else if trim m = [ '#', '#', '#', '#', '#' ] then Coverage.NotCovered
                   else Coverage.Covered }) ∧
      parse_gcov_line ("    #####:   77:    x = f();".data) =
        some { line_number := 77, statement := "x = f();".data,
               coverage := Coverage.NotCovered } := by
  constructor
  · intro m nf t n hm hnf hp
    rw [parse_gcov_line_concat m nf t hm hnf, hp]
  · decide

theorem parse_line_format_witness :
    parse_gcov_line (("    #####" : String).data ++ ':' ::
        (("   77" : String).data ++ ':' :: ("    x = f();" : String).data)) =
      some { line_number := 77, statement := ("x = f();" : String).data,
             coverage := Coverage.NotCovered } := by
  have h := parse_line_format.1 ("    #####" : String).data ("   77" : String).data
    ("    x = f();" : String).data 77 (by decide) (by decide) (by decide)
  rw [h]
  decide

/-- C10: a marker field that trims to the empty string (e.g. a line starting
directly with `:`) is classified `Covered`, like any marker other than `-`
and `#####`; it is not rejected or treated specially. -/
theorem parse_line_empty_marker :
    ∀ (m nf t : List Char) (n : Nat), trim m = [] → ':' ∉ m → ':' ∉ nf →
      parseU32 (trim nf) = some n →
      parse_gcov_line (m ++ ':' :: (nf ++ ':' :: t)) =
        some { line_number := n, statement := statementOfText t,
               coverage := Coverage.Covered } := by
  intro m nf t n hm0 hm hnf hp
  rw [parse_gcov_line_concat m nf t hm hnf, hp, hm0]
  simp

theorem parse_line_empty_marker_witness :
    parse_gcov_line (([] : List Char) ++ ':' ::
        (("1" : String).data ++ ':' :: ("x;" : String).data)) =
      some { line_number := 1, statement := statementOfText ("x;" : String).data,
             coverage := Coverage.Covered } :=
  parse_line_empty_marker [] _ _ 1 (by decide) (by decide) (by decide) (by decide)

/-- C8: a coverage line whose line-number field does not parse as a
non-negative integer makes `parse_gcov_line` fail, and any report containing
such a (non-blank) line makes the whole report parse fail — no record is
produced and no recovery occurs. -/
theorem parse_bad_line_number_fatal :
    (∀ (m nf t : List Char), ':' ∉ m → ':' ∉ nf → parseU32 (trim nf) = none →
        parse_gcov_line (m ++ ':' :: (nf ++ ':' :: t)) = none) ∧
      (∀ (lines : List (List Char)) (l : List Char), l ∈ lines → l ≠ [] →
        parse_gcov_line l = none → parse_gcov_file lines = none) := by
  constructor
  · intro m nf t hm hnf hp
    rw [parse_gcov_line_concat m nf t hm hnf, hp]
  · intro lines
    induction lines with
    | nil =>
      intro l h
      simp at h
    | cons x xs ih =>
      intro l hl hne hparse
      rcases List.mem_cons.mp hl with rfl | hl2
      · simp only [parse_gcov_file]
        rw [if_neg hne, hparse]
      · have hrec := ih l hl2 hne hparse
        simp only [parse_gcov_file]
        by_cases h1 : x = []
        · rw [if_pos h1]
          exact hrec
        · rw [if_neg h1]
          cases hpx : parse_gcov_line x with
          | none => simp
          | some info =>
            simp only []
            by_cases h2 : info.coverage = Coverage.NoExecutableCode
            · rw [if_pos h2]
              exact hrec
            · rw [if_neg h2]
              by_cases h3 : info.line_number = 0
              · rw [if_pos h3]
                exact hrec
              · rw [if_neg h3, hrec]

theorem parse_bad_line_number_fatal_witness :
    parse_gcov_line (("2" : String).data ++ ':' ::
        (("abc" : String).data ++ ':' :: ("y" : String).data)) = none ∧
      parse_gcov_file [("1:x:y" : String).data] = none :=
  ⟨parse_bad_line_number_fatal.1 _ _ _ (by decide) (by decide) (by decide),
    parse_bad_line_number_fatal.2 _ ("1:x:y" : String).data (by decide) (by decide)
      (by decide)⟩

/-- C5: a successfully parsed report contains no `NoExecutableCode` record
and no record with line number `0`; blank lines are skipped before parsing;
and the retained records are exactly the parsed records of the non-blank
lines, in report order. -/
theorem parse_file_filtering :
    ∀ (lines : List (List Char)) (out : List LineInfo),
      parse_gcov_file lines = some out →
      (∀ r ∈ out, r.coverage ≠ Coverage.NoExecutableCode ∧ r.line_number ≠ 0) ∧
        ∃ parsed : List LineInfo,
          List.Forall₂ (fun l i => parse_gcov_line l = some i)
            (lines.filter (fun l => !l.isEmpty)) parsed ∧
          out = parsed.filter
            (fun i => decide (i.coverage ≠ Coverage.NoExecutableCode) &&
              decide (i.line_number ≠ 0)) := by
  intro lines
  induction lines with
  | nil =>
    intro out h
    simp only [parse_gcov_file, Option.some.injEq] at h
    subst h
    exact ⟨by simp, [], by simp, by simp⟩
  | cons x xs ih =>
    intro out h
    simp only [parse_gcov_file] at h
    by_cases h1 : x = []
    · rw [if_pos h1] at h
      obtain ⟨ha, parsed, hf, hout⟩ := ih out h
      refine ⟨ha, parsed, ?_, hout⟩
      rw [List.filter_cons]
      simpa [h1] using hf
    · rw [if_neg h1] at h
      cases hpx : parse_gcov_line x with
      | none =>
        simp only [hpx] at h
        exact absurd h (by simp)
      | some info =>
        simp only [hpx] at h
        have hfilter : (x :: xs).filter (fun l => !l.isEmpty) =
            x :: xs.filter (fun l => !l.isEmpty) := by
          rw [List.filter_cons]
          simp [List.isEmpty_iff, h1]
        by_cases h2 : info.coverage = Coverage.NoExecutableCode
        · rw [if_pos h2] at h
          obtain ⟨ha, parsed, hf, hout⟩ := ih out h
          refine ⟨ha, info :: parsed, ?_, ?_⟩
          · rw [hfilter]
            exact List.Forall₂.cons hpx hf
          · rw [List.filter_cons]
            simp [h2, hout]
        · rw [if_neg h2] at h
          by_cases h3 : info.line_number = 0
          · rw [if_pos h3] at h
            obtain ⟨ha, parsed, hf, hout⟩ := ih out h
            refine ⟨ha, info :: parsed, ?_, ?_⟩
            · rw [hfilter]
              exact List.Forall₂.cons hpx hf
            · rw [List.filter_cons]
              simp [h3, hout]
          · rw [if_neg h3] at h
            cases hxs : parse_gcov_file xs with
            | none =>
              simp only [hxs] at h
              exact absurd h (by simp)
            | some rest =>
              simp only [hxs, Option.some.injEq] at h
              subst h
              obtain ⟨ha, parsed, hf, hout⟩ := ih rest hxs
              refine ⟨?_, info :: parsed, ?_, ?_⟩
              · intro r hr
                rcases List.mem_cons.mp hr with rfl | hr
                · exact ⟨h2, h3⟩
                · exact ha r hr
              · rw [hfilter]
                exact List.Forall₂.cons hpx hf
              · rw [List.filter_cons]
                simp [h2, h3, hout]

theorem parse_file_filtering_witness :
    (∀ r ∈ ([⟨77, "x".data, .NotCovered⟩, ⟨3, "y".data, .Covered⟩] : List LineInfo),
        r.coverage ≠ Coverage.NoExecutableCode ∧ r.line_number ≠ 0) ∧
      ∃ parsed : List LineInfo,
        List.Forall₂ (fun l i => parse_gcov_line l = some i)
          (([("        -:    0:Source:tcas4.c" : String).data, [],
            ("    #####:   77:x" : String).data,
            ("2:3:y" : String).data]).filter (fun l => !l.isEmpty)) parsed ∧
        ([⟨77, "x".data, .NotCovered⟩, ⟨3, "y".data, .Covered⟩] : List LineInfo) =
          parsed.filter
            (fun i => decide (i.coverage ≠ Coverage.NoExecutableCode) &&
              decide (i.line_number ≠ 0)) :=
  parse_file_filtering
    [("        -:    0:Source:tcas4.c" : String).data, [],
      ("    #####:   77:x" : String).data, ("2:3:y" : String).data]
    [⟨77, "x".data, .NotCovered⟩, ⟨3, "y".data, .Covered⟩] (by decide)

theorem mem_zipWith {α β γ : Type} {f : α → β → γ} :
    ∀ {as : List α} {bs : List β} {x : γ}, x ∈ List.zipWith f as bs →
      ∃ a b, a ∈ as ∧ b ∈ bs ∧ x = f a b := by
  intro as
  induction as with
  | nil => intro bs x h; simp at h
  | cons a as ih =>
    intro bs x h
    cases bs with
    | nil => simp at h
    | cons b bs =>
      rw [List.zipWith_cons_cons] at h
      rcases List.mem_cons.mp h with rfl | h
      · exact ⟨a, b, by simp, by simp, rfl⟩
      · obtain ⟨a2, b2, ha, hb, hx⟩ := ih h
        exact ⟨a2, b2, List.mem_cons_of_mem a ha, List.mem_cons_of_mem b hb, hx⟩

theorem mem_buildTable {baseline : List LineInfo} {tf : Nat} {e : StatementInfo}
    (h : e ∈ buildTable baseline tf) :
    e.passed_tests = 0 ∧ e.failed_tests = 0 ∧ e.total_failed = tf := by
  unfold buildTable at h
  rw [List.mem_filterMap] at h
  obtain ⟨line, _, hline⟩ := h
  by_cases hc : line.coverage = Coverage.NoExecutableCode
  · rw [if_pos hc] at hline
    exact absurd hline (by simp)
  · rw [if_neg hc] at hline
    simp only [Option.some.injEq] at hline
    subst hline
    exact ⟨rfl, rfl, rfl⟩

theorem add_test_bound {s : List StatementInfo} {t : List LineInfo} {p : Bool}
    {out : List StatementInfo} (h : add_test_to_statements s t p = some out) :
    ∀ e ∈ out, ∃ e0 ∈ s,
      e.passed_tests ≤ e0.passed_tests + 1 ∧
      e.failed_tests ≤ e0.failed_tests + 1 ∧
      e.total_failed = e0.total_failed ∧
      (p = true → e.failed_tests = e0.failed_tests) ∧
      (p = false → e.passed_tests = e0.passed_tests) := by
  intro e he
  unfold add_test_to_statements at h
  by_cases hlen : s.length = t.length
  · rw [if_pos hlen] at h
    simp only [Option.some.injEq] at h
    subst h
    obtain ⟨e0, t0, he0, _, rfl⟩ := mem_zipWith he
    refine ⟨e0, he0, ?_⟩
    split_ifs <;>
      simp_all [add_passing_coverage, add_failing_coverage]
  · rw [if_neg hlen] at h
    exact absurd h (by simp)

theorem foldReports_passing_bound :
    ∀ {rs : List (List LineInfo)} {t out : List StatementInfo},
      foldReports t rs true = some out → ∀ e ∈ out, ∃ e0 ∈ t,
        e.passed_tests ≤ e0.passed_tests + rs.length ∧
        e.failed_tests = e0.failed_tests ∧
        e.total_failed = e0.total_failed := by
  intro rs
  induction rs with
  | nil =>
    intro t out h e he
    simp only [foldReports, Option.some.injEq] at h
    subst h
    exact ⟨e, he, by omega, rfl, rfl⟩
  | cons r rs ih =>
    intro t out h e he
    simp only [foldReports] at h
    cases ha : add_test_to_statements t r true with
    | none =>
      rw [ha] at h
      exact absurd h (by simp)
    | some t1 =>
      rw [ha] at h
      obtain ⟨e1, he1, hp1, hf1, ht1⟩ := ih h e he
      obtain ⟨e0, he0, hp0, _, ht0, hfe, _⟩ := add_test_bound ha e1 he1
      refine ⟨e0, he0, by simp only [List.length_cons]; omega, ?_, by omega⟩
      rw [hf1, hfe rfl]

theorem foldReports_failing_bound :
    ∀ {rs : List (List LineInfo)} {t out : List StatementInfo},
      foldReports t rs false = some out → ∀ e ∈ out, ∃ e0 ∈ t,
        e.failed_tests ≤ e0.failed_tests + rs.length ∧
        e.passed_tests = e0.passed_tests ∧
        e.total_failed = e0.total_failed := by
  intro rs
  induction rs with
  | nil =>
    intro t out h e he
    simp only [foldReports, Option.some.injEq] at h
    subst h
    exact ⟨e, he, by omega, rfl, rfl⟩
  | cons r rs ih =>
    intro t out h e he
    simp only [foldReports] at h
    cases ha : add_test_to_statements t r false with
    | none =>
      rw [ha] at h
      exact absurd h (by simp)
    | some t1 =>
      rw [ha] at h
      obtain ⟨e1, he1, hf1, hp1, ht1⟩ := ih h e he
      obtain ⟨e0, he0, _, hf0, ht0, _, hpe⟩ := add_test_bound ha e1 he1
      refine ⟨e0, he0, by simp only [List.length_cons]; omega, ?_, by omega⟩
      rw [hp1, hpe rfl]

/-- C7: after building the table from a baseline with
`total_failed = finfos.length` and folding all passing then all failing
reports, every entry has `passed_tests` at most the number of passing
reports, `failed_tests ≤ total_failed`, the fixed `total_failed` everywhere,
and hence a non-negative score denominator. -/
theorem table_invariant :
    ∀ (baseline : List LineInfo) (pinfos finfos : List (List LineInfo))
      (t1 t2 : List StatementInfo),
      foldReports (buildTable baseline finfos.length) pinfos true = some t1 →
      foldReports t1 finfos false = some t2 →
      ∀ e ∈ t2, e.passed_tests ≤ pinfos.length ∧
        e.failed_tests ≤ e.total_failed ∧
        e.total_failed = finfos.length ∧
        0 ≤ (e.passed_tests : Int) + e.total_failed - e.failed_tests := by
  intro baseline pinfos finfos t1 t2 h1 h2 e he
  obtain ⟨e1, he1, hf1, hp1, ht1⟩ := foldReports_failing_bound h2 e he
  obtain ⟨e0, he0, hp0, hf0, ht0⟩ := foldReports_passing_bound h1 e1 he1
  obtain ⟨hz1, hz2, hz3⟩ := mem_buildTable he0
  refine ⟨by omega, by omega, by omega, by omega⟩

theorem table_invariant_witness :
    (⟨1, [], 1, 1, 1, .finite 0 0⟩ : StatementInfo).passed_tests ≤
        ([[⟨1, [], Coverage.Covered⟩]] : List (List LineInfo)).length ∧
      (⟨1, [], 1, 1, 1, .finite 0 0⟩ : StatementInfo).failed_tests ≤
        (⟨1, [], 1, 1, 1, .finite 0 0⟩ : StatementInfo).total_failed ∧
      (⟨1, [], 1, 1, 1, .finite 0 0⟩ : StatementInfo).total_failed =
        ([[⟨1, [], Coverage.Covered⟩]] : List (List LineInfo)).length ∧
      0 ≤ ((⟨1, [], 1, 1, 1, .finite 0 0⟩ : StatementInfo).passed_tests : Int) +
        (⟨1, [], 1, 1, 1, .finite 0 0⟩ : StatementInfo).total_failed -
        (⟨1, [], 1, 1, 1, .finite 0 0⟩ : StatementInfo).failed_tests :=
  table_invariant [⟨1, [], Coverage.Covered⟩] [[⟨1, [], Coverage.Covered⟩]]
    [[⟨1, [], Coverage.Covered⟩]] [⟨1, [], 0, 1, 1, .finite 0 0⟩]
    [⟨1, [], 1, 1, 1, .finite 0 0⟩] (by decide) (by decide)
    ⟨1, [], 1, 1, 1, .finite 0 0⟩ (by decide)

/-- C9: with no passing reports the pipeline aborts (the indexing of the
first passing report panics) and produces no ranking, whatever the failing
reports are. -/
theorem rank_requires_passing_baseline :
    ∀ failing_reports : List (List (List Char)), rank [] failing_reports = none := by
  intro fs
  unfold rank
  rw [show parseFiles [] = some [] from rfl]
  cases hm : parseFiles fs <;> simp

/-- C6: whenever the pipeline produces a ranking, the ranking is sorted
descending by suspiciousness (in the IEEE comparison sense), and entries
with equal suspiciousness — equal infinities included — appear in ascending
line-number order. -/
theorem rank_sorted :
    ∀ (ps fs : List (List (List Char))) (out : List StatementInfo),
      rank ps fs = some out → out.Pairwise entryBefore := by
  intro ps fs out h
  unfold rank at h
  cases h1 : parseFiles ps with
  | none => simp [h1] at h
  | some pinfos =>
    simp only [h1] at h
    cases h2 : parseFiles fs with
    | none => simp [h2] at h
    | some finfos =>
      simp only [h2] at h
      cases h3 : pinfos.head? with
      | none => simp [h3] at h
      | some baseline =>
        simp only [h3] at h
        cases h4 : foldReports (buildTable baseline fs.length) pinfos true with
        | none => simp [h4] at h
        | some t1 =>
          simp only [h4] at h
          cases h5 : foldReports t1 finfos false with
          | none => simp [h5] at h
          | some t2 =>
            simp only [h5] at h
            exact pairwise_sortEntries h

theorem rank_sorted_witness :
    List.Pairwise entryBefore
      [(⟨1, ("a" : String).data, 1, 1, 1, .finite 1 0⟩ : StatementInfo),
        ⟨2, ("b" : String).data, 0, 1, 1, .finite 0 1⟩] :=
  rank_sorted [[("1:1:a" : String).data, ("2:2:b" : String).data]]
    [[("1:1:a" : String).data, ("#####:2:b" : String).data]] _ (by decide)
